import Mathlib

/-!
Verification of the CSV ingestion and aggregation pipeline of the
ecommerce-dashboard backend.

Modelling conventions.
JavaScript numbers are modelled as exact rationals; where the code can hit a
division, `jsDiv` makes the IEEE special values (NaN, Infinity) explicit.  CSV
rows are association lists from header strings to cell strings.  Nullable
database columns are `Option` values; nullable string columns are modelled with
the empty string standing for null (JavaScript truthiness tests distinguish
exactly the empty/absent case for strings).  JavaScript objects used as
accumulator maps are modelled as functions `String → Option β`, with `none`
meaning the key is absent.  `parseFloat` is modelled on its finite fragment
(the inputs occurring here never parse to Infinity): its scan is split into a
syntactic phase (`floatParts`) and a numeric phase (`partsVal`).
-/

/-- JavaScript numbers: a finite rational or one of the IEEE special values. -/
inductive JSNum where
  | num : ℚ → JSNum
  | nan : JSNum
  | posInf : JSNum
  | negInf : JSNum
deriving DecidableEq

/-- JavaScript division `a / b` on finite operands, with explicit
NaN/Infinity results for a zero divisor. -/
def jsDiv (a b : ℚ) : JSNum :=
  if b = 0 then (if a = 0 then JSNum.nan else if 0 < a then JSNum.posInf else JSNum.negInf)
  else JSNum.num (a / b)

/-- Numeric value of a list of decimal digit characters (most significant first). -/
def digitsVal (l : List Char) : ℕ :=
  l.foldl (fun a c => 10 * a + (c.toNat - 48)) 0

/-- Powers of ten as rationals, by explicit recursion. -/
def pow10 : ℕ → ℚ
  | 0 => 1
  | n + 1 => 10 * pow10 n

/-- A power of ten with integer exponent. -/
def pow10Int : Int → ℚ
  | Int.ofNat n => pow10 n
  | Int.negSucc n => 1 / pow10 (n + 1)

/-- Value of a digit list read as the fractional part after a decimal point. -/
def fracVal (l : List Char) : ℚ :=
  (digitsVal l : ℚ) / pow10 l.length

/-- Exponent part of a JavaScript float literal (`e`/`E`, optional sign, digits);
`0` when no well-formed exponent follows (parseFloat then ignores the tail). -/
def expVal (l : List Char) : Int :=
  match l with
  | 'e' :: rest | 'E' :: rest =>
    let sr : Int × List Char :=
      match rest with
      | '-' :: rr => (-1, rr)
      | '+' :: rr => (1, rr)
      | _ => (1, rest)
    let ed := sr.2.takeWhile Char.isDigit
    if ed.isEmpty then 0 else sr.1 * (digitsVal ed : Int)
  | _ => 0

/-- Optional sign at the start of a JavaScript float literal; `true` means
negative. -/
def signSplit (l : List Char) : Bool × List Char :=
  match l with
  | '-' :: r => (true, r)
  | '+' :: r => (false, r)
  | _ => (false, l)

/-- The syntactic pieces of a parsed JavaScript float literal. -/
structure FloatParts where
  negative : Bool
  intDigits : List Char
  fracDigits : List Char
  expo : Int
deriving DecidableEq

/-- Mantissa and exponent of a JavaScript float literal, after the sign: the
longest leading digit run, an optional decimal point with further digits, and
an optional exponent; `none` (a NaN result) when no digit is found in the
mantissa.  Any unconsumed tail is ignored. -/
def partsAfterSign (neg : Bool) (l1 : List Char) : Option FloatParts :=
  match l1.dropWhile Char.isDigit with
  | '.' :: rest =>
    if (l1.takeWhile Char.isDigit).isEmpty && (rest.takeWhile Char.isDigit).isEmpty then none
    else some ⟨neg, l1.takeWhile Char.isDigit, rest.takeWhile Char.isDigit,
      expVal (rest.dropWhile Char.isDigit)⟩
  | r1 => if (l1.takeWhile Char.isDigit).isEmpty then none
    else some ⟨neg, l1.takeWhile Char.isDigit, [], expVal r1⟩

/-- Syntactic phase of JavaScript `parseFloat`: skip leading whitespace, read an
optional sign, then the mantissa and exponent. -/
def floatParts (s : String) : Option FloatParts :=
  partsAfterSign (signSplit (s.data.dropWhile Char.isWhitespace)).1
    (signSplit (s.data.dropWhile Char.isWhitespace)).2

/-- Numeric phase of JavaScript `parseFloat`: the rational value of the parts. -/
def partsVal (p : FloatParts) : ℚ :=
  (if p.negative then (-1 : ℚ) else 1) * ((digitsVal p.intDigits : ℚ) + fracVal p.fracDigits) *
    pow10Int p.expo

/-- JavaScript `parseFloat`, finite fragment; `none` models a NaN result. -/
def jsParseFloat (s : String) : Option ℚ :=
  (floatParts s).map partsVal

/-- `String(value).replace(/[^0-9.-]/g, '')` from `parseNumber`
(src/routes/products.js line 263). -/
def cleanNumeric (s : String) : String :=
  ⟨s.data.filter (fun c => c.isDigit || c == '.' || c == '-')⟩

/-- `parseNumber` from src/routes/products.js lines 261-266: falsy input gives 0,
otherwise strip every character that is not a digit, dot or minus, `parseFloat`
the result, and replace NaN by 0. -/
def parseNumber (v : String) : ℚ :=
  if v = "" then 0
  else (jsParseFloat (cleanNumeric v)).getD 0

/-- Optional leading minus sign of a decimal numeral; `true` means negative. -/
def minusSplit (l : List Char) : Bool × List Char :=
  match l with
  | '-' :: r => (true, r)
  | _ => (false, l)

/-- Whether a character list is in its entirety a valid decimal numeral:
an optional leading minus, then digits and at most one decimal point, with at
least one digit.  This is the notion of "valid number" used by the spec's
Numeric Coercer contract, under which e.g. multiple decimal points make the
whole input invalid. -/
def specValidNumeral (l : List Char) : Bool :=
  let l1 := (minusSplit l).2
  decide (l1.count '.' ≤ 1) && l1.all (fun c => c.isDigit || c == '.') &&
    l1.any Char.isDigit

/-- Value of a (valid) decimal numeral: sign times integer part plus
fractional part, splitting at the decimal point. -/
def decimalValue (l : List Char) : ℚ :=
  let ms := minusSplit l
  let ip := ms.2.takeWhile (fun c => c != '.')
  let fp := (ms.2.dropWhile (fun c => c != '.')).drop 1
  (if ms.1 then (-1 : ℚ) else 1) * ((digitsVal ip : ℚ) + fracVal fp)

/-- The Numeric Coercer exactly as the spec words it (section 4.2): strip every
character that is not a digit, decimal point, or minus sign, then parse the
remainder as a number; if the remainder is not in its entirety a valid numeral
(empty string, multiple decimal points, etc.), return exactly zero. -/
def specParseNumber (v : String) : ℚ :=
  if v = "" then 0
  else if specValidNumeral (cleanNumeric v).data then decimalValue (cleanNumeric v).data
  else 0

/-! The campaign_reports data model as read back by the dashboard and products
routes (src/routes/dashboard.js, src/routes/products.js GET handlers). -/

/-- One row of the campaign_reports table as the aggregation routes read it.
Nullable numeric columns are `Option`; a null platform or product_name is
modelled as the empty string (the code only ever tests their truthiness). -/
structure DbCampaign where
  platform : String
  product_name : String
  amount_spent : Option ℚ
  revenue : Option ℚ
  conversions : Option ℚ
deriving DecidableEq

/-- `x || 0` on a nullable numeric column. -/
def orZero (o : Option ℚ) : ℚ := o.getD 0

/-- src/routes/dashboard.js line 29: total spend KPI. -/
def totalSpendDb (l : List DbCampaign) : ℚ :=
  l.foldl (fun s c => s + orZero c.amount_spent) 0

/-- src/routes/dashboard.js line 30: total revenue KPI. -/
def totalRevenueDb (l : List DbCampaign) : ℚ :=
  l.foldl (fun s c => s + orZero c.revenue) 0

/-- src/routes/dashboard.js line 31: total conversions KPI. -/
def totalConversionsDb (l : List DbCampaign) : ℚ :=
  l.foldl (fun s c => s + orZero c.conversions) 0

/-- src/routes/dashboard.js line 32:
`totalSpend > 0 ? (totalRevenue / totalSpend) : 0`. -/
def roasKpi (l : List DbCampaign) : JSNum :=
  if 0 < totalSpendDb l then jsDiv (totalRevenueDb l) (totalSpendDb l) else JSNum.num 0

/-- src/routes/dashboard.js line 36: the accumulation key
`campaign.platform || 'unknown'` (only a falsy platform falls back). -/
def pKey (c : DbCampaign) : String := if c.platform = "" then "unknown" else c.platform

/-- Per-platform totals accumulated by the dashboard breakdown. -/
structure PTotals where
  spend : ℚ
  revenue : ℚ
  conversions : ℚ
deriving DecidableEq

/-- One step of the src/routes/dashboard.js lines 35-44 `reduce`. -/
def pdUpd (acc : String → Option PTotals) (c : DbCampaign) : String → Option PTotals :=
  let cur := (acc (pKey c)).getD ⟨0, 0, 0⟩
  fun p => if p = pKey c then
      some ⟨cur.spend + orZero c.amount_spent, cur.revenue + orZero c.revenue,
        cur.conversions + orZero c.conversions⟩
    else acc p

/-- src/routes/dashboard.js lines 35-44: the platform breakdown map. -/
def platformData (l : List DbCampaign) : String → Option PTotals :=
  l.foldl pdUpd (fun _ => none)

/-- `needle` begins `hay` (character-level). -/
def leadsList : List Char → List Char → Bool
  | [], _ => true
  | _ :: _, [] => false
  | a :: as, b :: bs => a == b && leadsList as bs

/-- JS `hay.includes(needle)`: `needle` occurs as a contiguous run in `hay`. -/
def containsSub (hay needle : List Char) : Bool :=
  match hay with
  | [] => needle.isEmpty
  | c :: t => leadsList needle (c :: t) || containsSub t needle

/-- JS `s.toLowerCase()` (ASCII fragment). -/
def jsToLower (s : String) : String := ⟨s.data.map Char.toLower⟩

/-- JS `hay.includes(needle)` on strings. -/
def jsIncludes (hay needle : String) : Bool := containsSub hay.data needle.data

/-- src/routes/products.js lines 41-43: the campaigns contributing to one
product's metrics (`c.product_name` truthy and containing the product's name
case-insensitively). -/
def productCampaigns (campaigns : List DbCampaign) (productName : String) :
    List DbCampaign :=
  campaigns.filter fun c =>
    (!(c.product_name == "")) && jsIncludes (jsToLower c.product_name) (jsToLower productName)

/-- src/routes/products.js line 45: a product's total spend. -/
def productSpend (campaigns : List DbCampaign) (productName : String) : ℚ :=
  (productCampaigns campaigns productName).foldl (fun s c => s + orZero c.amount_spent) 0

/-- src/routes/products.js line 46: a product's total revenue. -/
def productRevenue (campaigns : List DbCampaign) (productName : String) : ℚ :=
  (productCampaigns campaigns productName).foldl (fun s c => s + orZero c.revenue) 0

/-- src/routes/products.js line 77: the product's overall ROAS guard value
(`totalSpend > 0 ? (totalRevenue / totalSpend).toFixed(2) : '0.00'`; the
number under the `toFixed(2)` rendering is modelled). -/
def productRoas (campaigns : List DbCampaign) (productName : String) : JSNum :=
  if 0 < productSpend campaigns productName then
    jsDiv (productRevenue campaigns productName) (productSpend campaigns productName)
  else JSNum.num 0

/-- One step of the src/routes/products.js lines 50-58 platform-performance
`reduce` (spend and revenue per raw platform key). -/
def ppUpd (acc : String → Option (ℚ × ℚ)) (c : DbCampaign) : String → Option (ℚ × ℚ) :=
  let cur := (acc c.platform).getD (0, 0)
  fun p => if p = c.platform then
      some (cur.1 + orZero c.amount_spent, cur.2 + orZero c.revenue)
    else acc p

/-- src/routes/products.js lines 50-58: per-product platform performance map. -/
def platformPerformance (campaigns : List DbCampaign) (productName : String) :
    String → Option (ℚ × ℚ) :=
  (productCampaigns campaigns productName).foldl ppUpd (fun _ => none)

/-- src/routes/products.js line 63:
`metrics.spend > 0 ? metrics.revenue / metrics.spend : 0`. -/
def perfRoas (spend revenue : ℚ) : JSNum :=
  if 0 < spend then jsDiv revenue spend else JSNum.num 0

/-! The src/ecommerce-dashboard/server.js read path: the /api/products
aggregation over raw uploaded rows (lines 178-254) and the sorted output
views. -/

/-- A raw CSV row: an association list from header string to cell string. -/
abbrev SRow := List (String × String)

/-- `row[k]` on a raw row (JS object keys are unique; first binding wins). -/
def rowGet : SRow → String → Option String
  | [], _ => none
  | (k, v) :: t, k2 => if k = k2 then some v else rowGet t k2

/-- JS `parseFloat(x) || 0` where `x` may be undefined. -/
def jsParseFloatOr0 (v : Option String) : ℚ :=
  match v with
  | none => 0
  | some s => (jsParseFloat s).getD 0

/-- JS `s.split(sep)[0]`: the run before the first occurrence of `sep`. -/
def upToSep (sep : List Char) : List Char → List Char
  | [] => []
  | c :: t => if leadsList sep (c :: t) then [] else c :: upToSep sep t

/-- JS `String.prototype.trim` (ASCII whitespace). -/
def trimChars (l : List Char) : List Char :=
  ((l.dropWhile Char.isWhitespace).reverse.dropWhile Char.isWhitespace).reverse

/-- server.js line 202: `campaignName.split(' - ')[0].trim()`. -/
def deriveProductName (campaignName : String) : String :=
  ⟨trimChars (upToSep " - ".data campaignName.data)⟩

/-- The per-product accumulator entry of the server.js /api/products fold
(lines 212-241). -/
structure PEntry where
  name : String
  totalRevenue : ℚ
  facebookRevenue : ℚ
  tiktokRevenue : ℚ
  googleRevenue : ℚ
  totalSpend : ℚ
  totalConversions : ℚ
  totalROAS : ℚ
  revenuePerConversion : ℚ
  bestPlatform : String
deriving DecidableEq

/-- server.js lines 191-194: the settings map `product_name ↦
revenue_per_conversion` (later inserts win), read as `.get(name) || 0`
(line 208). -/
def settingsMapOf (settings : List (String × ℚ)) (name : String) : ℚ :=
  (settings.foldl (fun acc kv => if kv.1 = name then some kv.2 else acc) none).getD 0

/-- Derived product name of one (report platform, row) pair
(server.js lines 201-202, with `row['Campaign name'] || ''`). -/
def rowName (pr : String × SRow) : String :=
  deriveProductName ((rowGet pr.2 "Campaign name").getD "")

/-- server.js line 205: `parseFloat(row['Results']) || 0`. -/
def rowConv (pr : String × SRow) : ℚ := jsParseFloatOr0 (rowGet pr.2 "Results")

/-- server.js line 206: `parseFloat(row['Amount spent (CAD)']) || 0`. -/
def rowSpend (pr : String × SRow) : ℚ :=
  jsParseFloatOr0 (rowGet pr.2 "Amount spent (CAD)")

/-- server.js line 209: `revenue = conversions * revenuePerConversion`. -/
def rowRev (rpc : String → ℚ) (pr : String × SRow) : ℚ :=
  rowConv pr * rpc (rowName pr)

/-- The revenue a row contributes to one platform-specific revenue column. -/
def rowPlatRev (rpc : String → ℚ) (plat : String) (pr : String × SRow) : ℚ :=
  if pr.1 = plat then rowRev rpc pr else 0

/-- One step of the server.js lines 198-243 product fold at one (report
platform, row) pair; rows with an empty derived product name are skipped
(line 204). -/
def pmUpd (rpc : String → ℚ) (acc : String → Option PEntry) (pr : String × SRow) :
    String → Option PEntry :=
  if rowName pr = "" then acc
  else
    let revenue := rowConv pr * rpc (rowName pr)
    let cur := (acc (rowName pr)).getD
      ⟨rowName pr, 0, 0, 0, 0, 0, 0, 0, rpc (rowName pr), "Facebook"⟩
    fun p => if p = rowName pr then
      some ⟨cur.name, cur.totalRevenue + revenue,
        (if pr.1 = "Facebook" then cur.facebookRevenue + revenue else cur.facebookRevenue),
        (if pr.1 = "TikTok" then cur.tiktokRevenue + revenue else cur.tiktokRevenue),
        (if pr.1 = "Google" then cur.googleRevenue + revenue else cur.googleRevenue),
        cur.totalSpend + rowSpend pr, cur.totalConversions + rowConv pr,
        (if 0 < cur.totalSpend + rowSpend pr
          then (cur.totalRevenue + revenue) / (cur.totalSpend + rowSpend pr) else 0),
        cur.revenuePerConversion, cur.bestPlatform⟩
    else acc p

/-- server.js lines 196-244: the product map built over all (report platform,
row) pairs of the fetched reports, in order. -/
def productMap (rpc : String → ℚ) (rows : List (String × SRow)) :
    String → Option PEntry :=
  rows.foldl (pmUpd rpc) (fun _ => none)

/-- The fresh entry created when a product key is first seen (lines 212-224). -/
def defaultEntry (rpc : String → ℚ) (p : String) : PEntry :=
  ⟨p, 0, 0, 0, 0, 0, 0, 0, rpc p, "Facebook"⟩

/-- The update of one existing entry by one contributing row
(lines 227-240). -/
def applyC (rpc : String → ℚ) (pr : String × SRow) (e : PEntry) : PEntry :=
  let revenue := rowConv pr * rpc (rowName pr)
  ⟨e.name, e.totalRevenue + revenue,
    (if pr.1 = "Facebook" then e.facebookRevenue + revenue else e.facebookRevenue),
    (if pr.1 = "TikTok" then e.tiktokRevenue + revenue else e.tiktokRevenue),
    (if pr.1 = "Google" then e.googleRevenue + revenue else e.googleRevenue),
    e.totalSpend + rowSpend pr, e.totalConversions + rowConv pr,
    (if 0 < e.totalSpend + rowSpend pr
      then (e.totalRevenue + revenue) / (e.totalSpend + rowSpend pr) else 0),
    e.revenuePerConversion, e.bestPlatform⟩

/-- One fold step restricted to the rows contributing to a fixed key `p`. -/
def applyStep (rpc : String → ℚ) (p : String) (e : Option PEntry)
    (pr : String × SRow) : Option PEntry :=
  some (applyC rpc pr (e.getD (defaultEntry rpc p)))

/-! Sorting.  `Array.prototype.sort` with comparator `(a, b) => b.rev - a.rev`
is, per the ECMAScript specification, a stable sort in descending revenue
order; it is modelled by stable insertion. -/

/-- Stable descending insertion: walk past strictly greater keys, so an
inserted element lands after every earlier equal-keyed element. -/
def insDesc {α : Type} (f : α → ℚ) (a : α) : List α → List α
  | [] => [a]
  | b :: l => if f a < f b then b :: insDesc f a l else a :: b :: l

/-- Stable descending sort by key `f`, modelling
`.sort((a, b) => f(b) - f(a))`. -/
def sortDescBy {α : Type} (f : α → ℚ) (l : List α) : List α :=
  l.foldr (insDesc f) []

/-- One platform entry of the server.js /api/dashboard breakdown
(lines 141-149). -/
structure PlatformStat where
  name : String
  revenue : ℚ
  spend : ℚ
  orders : ℕ
  roas : ℚ
deriving DecidableEq

/-- server.js line 162: `Object.values(platformStats).sort((a, b) =>
b.revenue - a.revenue)`. -/
def sortPlatforms (l : List PlatformStat) : List PlatformStat :=
  sortDescBy (fun s => s.revenue) l

/-- server.js lines 246-247: `Array.from(productMap.values()).sort((a, b) =>
b.totalRevenue - a.totalRevenue)`. -/
def sortProducts (l : List PEntry) : List PEntry :=
  sortDescBy (fun p => p.totalRevenue) l

/-! The upload pipeline of src/routes/products.js lines 219-329 (the products
router's POST handler), modelled after authentication and CSV parsing: the
handler receives the declared platform and the parsed row list, and the two
store writes are modelled by their outcomes (`none` = success). -/

/-- The HTTP response of the upload handler: `badRequest` is a 400 validation
error, `serverError` a 500, `success` the 200 payload's rowsProcessed. -/
inductive UploadResponse where
  | badRequest : String → UploadResponse
  | serverError : String → UploadResponse
  | success : ℕ → UploadResponse
deriving DecidableEq

/-- One Campaign Report Record as built by src/routes/products.js
lines 278-290. -/
structure CampaignRecord where
  user_id : String
  file_name : String
  platform : String
  campaign_name : String
  product_name : String
  amount_spent : ℚ
  revenue : ℚ
  conversions : ℚ
  clicks : ℚ
  impressions : ℚ
  raw_data : SRow
deriving DecidableEq

/-- One Upload History Entry as built by lines 305-313. -/
structure HistoryEntry where
  user_id : String
  file_name : String
  platform : String
  rows_processed : ℕ
  status : String
deriving DecidableEq

/-- Outcome of one upload: the response plus everything written to the store. -/
structure UploadResult where
  response : UploadResponse
  insertedRecords : List CampaignRecord
  insertedHistory : List HistoryEntry
deriving DecidableEq

/-- `getColumnValue` from src/routes/products.js lines 269-276: first alias
whose value is present and non-empty, else the empty string. -/
def getColumnValue (row : SRow) : List String → String
  | [] => ""
  | n :: rest =>
    match rowGet row n with
    | some v => if v = "" then getColumnValue row rest else v
    | none => getColumnValue row rest

/-- Record construction from one parsed row, src/routes/products.js
lines 278-290. -/
def processRow (userId fileName platform : String) (row : SRow) : CampaignRecord :=
  { user_id := userId
    file_name := fileName
    platform := platform
    campaign_name := getColumnValue row
      ["Campaign name", "Campaign Name", "campaign_name", "Campaign"]
    product_name := getColumnValue row
      ["Product name", "Product Name", "product_name", "Product"]
    amount_spent := parseNumber (getColumnValue row
      ["Amount spent (CAD)", "Amount Spent", "Spend", "Cost"])
    revenue := parseNumber (getColumnValue row
      ["Purchase ROAS (return on ad spend)", "Revenue", "Purchase Value", "Conversion Value"])
    conversions := parseNumber (getColumnValue row
      ["Purchases", "Conversions", "Orders", "Results"])
    clicks := parseNumber (getColumnValue row ["Link clicks", "Clicks", "Link Clicks"])
    impressions := parseNumber (getColumnValue row ["Impressions", "Reach"])
    raw_data := row }

/-- The platform enumeration of src/routes/products.js line 236. -/
def validPlatforms : List String := ["facebook", "tiktok", "google"]

/-- The products-router upload handler, src/routes/products.js lines 219-329,
after authentication and CSV parsing: validate the platform, reject an empty
row list, process the rows, bulk-insert them (aborting on an insert error with
no writes), then write one history entry whose failure is only logged. -/
def uploadHandler (userId fileName platform : String) (csvData : List SRow)
    (insertError historyError : Option String) : UploadResult :=
  if !(validPlatforms.contains platform) then
    ⟨UploadResponse.badRequest "Invalid platform specified", [], []⟩
  else if csvData.length = 0 then
    ⟨UploadResponse.badRequest "CSV file is empty or invalid", [], []⟩
  else
    let processedData := csvData.map (processRow userId fileName platform)
    match insertError with
    | some _ => ⟨UploadResponse.serverError "Failed to save data to database", [], []⟩
    | none =>
      match historyError with
      | some _ => ⟨UploadResponse.success processedData.length, processedData, []⟩
      | none =>
        ⟨UploadResponse.success processedData.length, processedData,
          [⟨userId, fileName, platform, processedData.length, "completed"⟩]⟩

/-- The row of C9's scenario: headers `Campaign name, Amount spent (CAD),
Purchases` with values "ProductX - Summer", "$12.50", "3". -/
def row9 : SRow :=
  [("Campaign name", "ProductX - Summer"), ("Amount spent (CAD)", "$12.50"),
   ("Purchases", "3")]

/-! The src/ecommerce-dashboard/server.js upload endpoint (lines 257-307),
modelled after authentication and CSV parsing: it performs no platform
validation (`const { platform = 'Facebook' } = req.body`) and no empty-file
check, and inserts one campaign_reports row holding the raw parsed rows. -/

/-- The campaign_reports row inserted by server.js lines 273-282. -/
structure ServerReport where
  platform : String
  file_name : String
  data : List SRow
  processed : Bool
deriving DecidableEq

/-- Response of the server.js upload endpoint. -/
inductive SResponse where
  | serverError : String → SResponse
  | success : ℕ → SResponse
deriving DecidableEq

/-- Outcome of the server.js upload endpoint. -/
structure SUploadResult where
  response : SResponse
  insertedReports : List ServerReport
deriving DecidableEq

/-- The server.js /api/upload handler, lines 257-307: default the platform
field to 'Facebook' when absent, insert one report row with the parsed rows
(whatever the declared platform and row count), and report the record count. -/
def serverUpload (fileName : String) (platformField : Option String)
    (results : List SRow) (insertError : Option String) : SUploadResult :=
  let platform := platformField.getD "Facebook"
  match insertError with
  | some e => ⟨SResponse.serverError e, []⟩
  | none => ⟨SResponse.success results.length, [⟨platform, fileName, results, true⟩]⟩

/-- C1: counterexample.  The claim (with the spec) requires that an input whose
stripped remainder is not a valid number — the spec explicitly lists multiple
decimal points — coerces to exactly zero.  The code instead parses the longest
valid numeric run: `parseNumber "1.2.3"` returns `1.2`, not `0`. -/
theorem c1_counterexample :
    parseNumber "1.2.3" = 6 / 5 ∧ specParseNumber "1.2.3" = 0 ∧ (6 / 5 : ℚ) ≠ 0 := by
  have hp : floatParts (cleanNumeric "1.2.3") = some ⟨false, ['1'], ['2'], 0⟩ := by decide
  refine ⟨?_, by decide, by norm_num⟩
  show (jsParseFloat (cleanNumeric "1.2.3")).getD 0 = 6 / 5
  rw [jsParseFloat, hp]
  show partsVal ⟨false, ['1'], ['2'], 0⟩ = 6 / 5
  have h1 : digitsVal ['1'] = 1 := by decide
  have h2 : digitsVal ['2'] = 2 := by decide
  rw [partsVal]
  simp only [h1, h2, fracVal, pow10Int]
  norm_num [pow10]

/-! Helper lemmas about `takeWhile`, `dropWhile` and the character classes
involved in numeric parsing. -/

theorem takeWhile_all {p : Char → Bool} {l : List Char} (h : ∀ c ∈ l, p c = true) :
    l.takeWhile p = l := by
  induction l with
  | nil => rfl
  | cons c t ih =>
    rw [List.takeWhile_cons_of_pos (h c (List.mem_cons_self c t))]
    rw [ih fun x hx => h x (List.mem_cons_of_mem _ hx)]

theorem dropWhile_all {p : Char → Bool} {l : List Char} (h : ∀ c ∈ l, p c = true) :
    l.dropWhile p = [] := by
  induction l with
  | nil => rfl
  | cons c t ih =>
    rw [List.dropWhile_cons_of_pos (h c (List.mem_cons_self c t))]
    exact ih fun x hx => h x (List.mem_cons_of_mem _ hx)

theorem dropWhile_all_neg {p : Char → Bool} {l : List Char} (h : ∀ c ∈ l, p c = false) :
    l.dropWhile p = l := by
  cases l with
  | nil => rfl
  | cons c t =>
    rw [List.dropWhile_cons_of_neg]
    simp [h c (List.mem_cons_self c t)]

theorem takeWhile_app {p : Char → Bool} {l₁ : List Char} {c0 : Char} {l₂ : List Char}
    (h1 : ∀ c ∈ l₁, p c = true) (h2 : p c0 = false) :
    (l₁ ++ c0 :: l₂).takeWhile p = l₁ := by
  induction l₁ with
  | nil =>
    rw [List.nil_append, List.takeWhile_cons_of_neg]
    simp [h2]
  | cons c t ih =>
    rw [List.cons_append, List.takeWhile_cons_of_pos (h1 c (List.mem_cons_self c t))]
    rw [ih fun x hx => h1 x (List.mem_cons_of_mem _ hx)]

theorem dropWhile_app {p : Char → Bool} {l₁ : List Char} {c0 : Char} {l₂ : List Char}
    (h1 : ∀ c ∈ l₁, p c = true) (h2 : p c0 = false) :
    (l₁ ++ c0 :: l₂).dropWhile p = c0 :: l₂ := by
  induction l₁ with
  | nil =>
    rw [List.nil_append, List.dropWhile_cons_of_neg]
    simp [h2]
  | cons c t ih =>
    rw [List.cons_append, List.dropWhile_cons_of_pos (h1 c (List.mem_cons_self c t))]
    exact ih fun x hx => h1 x (List.mem_cons_of_mem _ hx)

theorem mem_takeWhile {p : Char → Bool} {l : List Char} {x : Char}
    (hx : x ∈ l.takeWhile p) : p x = true := by
  induction l with
  | nil => cases hx
  | cons c t ih =>
    by_cases hc : p c = true
    · rw [List.takeWhile_cons_of_pos hc] at hx
      rcases List.mem_cons.mp hx with h | h
      · subst h; exact hc
      · exact ih h
    · rw [List.takeWhile_cons_of_neg hc] at hx; cases hx

theorem not_ws_of_keep {c : Char} (h : (c.isDigit || c == '.' || c == '-') = true) :
    c.isWhitespace = false := by
  cases hw : c.isWhitespace with
  | false => rfl
  | true =>
    exfalso
    rw [Char.isWhitespace] at hw
    simp only [Bool.or_eq_true, decide_eq_true_eq] at hw
    rcases hw with ((h1 | h1) | h1) | h1 <;> subst h1 <;> exact absurd h (by decide)

theorem signSplit_default {c : Char} {t : List Char} (h1 : c ≠ '-') (h2 : c ≠ '+') :
    signSplit (c :: t) = (false, c :: t) := by
  unfold signSplit
  split
  next r heq => injection heq with hc ht; exact absurd hc h1
  next r heq => injection heq with hc ht; exact absurd hc h2
  next => rfl

theorem minusSplit_default {c : Char} {t : List Char} (h1 : c ≠ '-') :
    minusSplit (c :: t) = (false, c :: t) := by
  unfold minusSplit
  split
  next r heq => injection heq with hc ht; exact absurd hc h1
  next => rfl

theorem signSplit_eq_minus {l : List Char}
    (h : ∀ c ∈ l, (c.isDigit || c == '.' || c == '-') = true) :
    signSplit l = minusSplit l := by
  cases l with
  | nil => rfl
  | cons c t =>
    by_cases hc : c = '-'
    · subst hc; rfl
    · have hp : c ≠ '+' := by
        intro hcp; subst hcp
        exact absurd (h '+' (List.mem_cons_self _ _)) (by decide)
      rw [signSplit_default hc hp, minusSplit_default hc]

theorem isEmpty_false_of_ne {l : List Char} (h : l ≠ []) : l.isEmpty = false := by
  cases l with
  | nil => exact absurd rfl h
  | cons a t => rfl

theorem digit_ne_dot {c : Char} (h : c.isDigit = true) : (c != '.') = true := by
  simp only [bne_iff_ne, ne_eq]
  intro he; subst he; exact absurd h (by decide)

theorem dropWhile_ne_dot {l : List Char} (h : '.' ∈ l) :
    ∃ t, l.dropWhile (fun c => c != '.') = '.' :: t := by
  induction l with
  | nil => cases h
  | cons c t ih =>
    by_cases hc : c = '.'
    · subst hc
      exact ⟨t, by rw [List.dropWhile_cons_of_neg (by simp)]⟩
    · have hmem : '.' ∈ t := by
        rcases List.mem_cons.mp h with h0 | h0
        · exact absurd h0.symm hc
        · exact h0
      obtain ⟨t2, ht⟩ := ih hmem
      refine ⟨t2, ?_⟩
      rw [List.dropWhile_cons_of_pos (by simp [bne_iff_ne]; exact fun he => hc he), ht]

theorem partsVal_expo_zero (neg : Bool) (i f : List Char) :
    partsVal ⟨neg, i, f, 0⟩ =
      (if neg then (-1 : ℚ) else 1) * ((digitsVal i : ℚ) + fracVal f) := by
  have h : pow10Int 0 = 1 := rfl
  rw [partsVal]
  show _ * pow10Int 0 = _
  rw [h, mul_one]

theorem partsAfterSign_all_digits {neg : Bool} {l1 : List Char}
    (hdig : ∀ c ∈ l1, c.isDigit = true) (hne : l1 ≠ []) :
    partsAfterSign neg l1 = some ⟨neg, l1, [], 0⟩ := by
  have h1 : l1.isEmpty = false := isEmpty_false_of_ne hne
  unfold partsAfterSign
  rw [dropWhile_all hdig, takeWhile_all hdig]
  show (if l1.isEmpty then none else some ⟨neg, l1, [], expVal []⟩ : Option FloatParts) =
    some ⟨neg, l1, [], 0⟩
  simp only [h1]
  rfl

theorem partsAfterSign_with_dot {neg : Bool} {ds1 ds2 : List Char}
    (h1 : ∀ c ∈ ds1, c.isDigit = true) (h2 : ∀ c ∈ ds2, c.isDigit = true)
    (hne : ds1 ≠ [] ∨ ds2 ≠ []) :
    partsAfterSign neg (ds1 ++ '.' :: ds2) = some ⟨neg, ds1, ds2, 0⟩ := by
  have hdw : (ds1 ++ '.' :: ds2).dropWhile Char.isDigit = '.' :: ds2 :=
    dropWhile_app h1 (by decide)
  have htw : (ds1 ++ '.' :: ds2).takeWhile Char.isDigit = ds1 :=
    takeWhile_app h1 (by decide)
  have htw2 : ds2.takeWhile Char.isDigit = ds2 := takeWhile_all h2
  have hdw2 : ds2.dropWhile Char.isDigit = [] := dropWhile_all h2
  have hcond : (ds1.isEmpty && ds2.isEmpty) = false := by
    rcases hne with h | h <;> rw [isEmpty_false_of_ne h] <;> simp
  unfold partsAfterSign
  rw [hdw, htw]
  show (if (ds1.isEmpty && (ds2.takeWhile Char.isDigit).isEmpty) then none
      else some ⟨neg, ds1, ds2.takeWhile Char.isDigit, expVal (ds2.dropWhile Char.isDigit)⟩ :
      Option FloatParts) = some ⟨neg, ds1, ds2, 0⟩
  rw [htw2, hdw2]
  simp only [hcond]
  rfl

theorem core_valid (neg : Bool) (l1 : List Char)
    (hcnt : l1.count '.' ≤ 1) (hall : ∀ c ∈ l1, (c.isDigit || c == '.') = true)
    (hany : ∃ c ∈ l1, c.isDigit = true) :
    (Option.map partsVal (partsAfterSign neg l1)).getD 0 =
      (if neg then (-1 : ℚ) else 1) *
        ((digitsVal (l1.takeWhile (fun c => c != '.')) : ℚ) +
          fracVal ((l1.dropWhile (fun c => c != '.')).drop 1)) := by
  by_cases hdot : '.' ∈ l1
  · obtain ⟨t, hdrop⟩ := dropWhile_ne_dot hdot
    have hsplit : l1 = l1.takeWhile (fun c => c != '.') ++ '.' :: t := by
      conv_lhs => rw [← List.takeWhile_append_dropWhile (p := fun c => c != '.') (l := l1)]
      rw [hdrop]
    set ds1 := l1.takeWhile (fun c => c != '.') with hds1
    have hnd1 : ∀ c ∈ ds1, c ≠ '.' := fun c hc => by
      have := mem_takeWhile hc
      simpa [bne_iff_ne] using this
    have hc1 : ds1.count '.' = 0 := List.count_eq_zero.mpr fun hmem => hnd1 _ hmem rfl
    have hcnt2 : t.count '.' = 0 := by
      rw [hsplit, List.count_append, List.count_cons_self] at hcnt
      omega
    have hnd2 : ∀ c ∈ t, c ≠ '.' := fun c hc he => by
      subst he
      exact absurd hc (List.count_eq_zero.mp hcnt2)
    have hmem1 : ∀ c ∈ ds1, c ∈ l1 := fun c hc => hsplit ▸ List.mem_append_left _ hc
    have hmem2 : ∀ c ∈ t, c ∈ l1 := fun c hc =>
      hsplit ▸ List.mem_append_right _ (List.mem_cons_of_mem _ hc)
    have hd1 : ∀ c ∈ ds1, c.isDigit = true := fun c hc => by
      rcases Bool.or_eq_true _ _ |>.mp (hall c (hmem1 c hc)) with h | h
      · exact h
      · exact absurd (by simpa using h) (hnd1 c hc)
    have hd2 : ∀ c ∈ t, c.isDigit = true := fun c hc => by
      rcases Bool.or_eq_true _ _ |>.mp (hall c (hmem2 c hc)) with h | h
      · exact h
      · exact absurd (by simpa using h) (hnd2 c hc)
    have hne : ds1 ≠ [] ∨ t ≠ [] := by
      obtain ⟨x, hx, hxd⟩ := hany
      rw [hsplit] at hx
      rcases List.mem_append.mp hx with h | h
      · exact Or.inl (List.ne_nil_of_mem h)
      · rcases List.mem_cons.mp h with h | h
        · subst h; exact absurd hxd (by decide)
        · exact Or.inr (List.ne_nil_of_mem h)
    rw [hsplit, partsAfterSign_with_dot hd1 hd2 hne,
      dropWhile_app (fun c hc => by simp [bne_iff_ne]; exact fun he => hnd1 c hc he) (by decide)]
    show partsVal ⟨neg, ds1, t, 0⟩ = _
    rw [partsVal_expo_zero]
    rfl
  · have hdig : ∀ c ∈ l1, c.isDigit = true := fun c hc => by
      rcases Bool.or_eq_true _ _ |>.mp (hall c hc) with h | h
      · exact h
      · exact absurd (beq_iff_eq.mp h ▸ hc) hdot
    have hne : l1 ≠ [] := by
      obtain ⟨x, hx, _⟩ := hany
      exact List.ne_nil_of_mem hx
    rw [partsAfterSign_all_digits hdig hne]
    show partsVal ⟨neg, l1, [], 0⟩ = _
    rw [partsVal_expo_zero,
      takeWhile_all (fun c hc => digit_ne_dot (hdig c hc)),
      dropWhile_all (fun c hc => digit_ne_dot (hdig c hc))]
    rfl

theorem parseNumber_spec_valid {v : String} (hv : v ≠ "")
    (hval : specValidNumeral (cleanNumeric v).data = true) :
    parseNumber v = decimalValue (cleanNumeric v).data := by
  have hkeep : ∀ c ∈ (cleanNumeric v).data, (c.isDigit || c == '.' || c == '-') = true := by
    intro c hc
    have hc2 : c ∈ v.data.filter (fun c => c.isDigit || c == '.' || c == '-') := hc
    exact (List.mem_filter.mp hc2).2
  have hws : (cleanNumeric v).data.dropWhile Char.isWhitespace = (cleanNumeric v).data :=
    dropWhile_all_neg fun c hc => not_ws_of_keep (hkeep c hc)
  have hsgn : signSplit (cleanNumeric v).data = minusSplit (cleanNumeric v).data :=
    signSplit_eq_minus hkeep
  simp only [specValidNumeral, Bool.and_eq_true, decide_eq_true_eq, List.all_eq_true,
    List.any_eq_true] at hval
  obtain ⟨⟨hcnt, hall⟩, hany⟩ := hval
  rw [parseNumber, if_neg hv, jsParseFloat, floatParts, hws, hsgn,
    core_valid _ _ hcnt hall hany]
  rfl

/-- C1 (amended): `parseNumber` strips every character that is not a digit,
decimal point or minus sign and then parses the longest valid numeric run of
the remainder, so on every input whose stripped remainder is in its entirety a
valid decimal numeral it returns exactly that numeral's value; it returns 0 on
falsy input or when no numeric run exists, and never errors.  In particular
`"$1,234.56"` gives `1234.56`, `""` gives `0` and `"abc"` gives `0`.  However
a malformed tail after a valid run is ignored rather than forcing 0:
`"1.2.3"` gives `1.2`. -/
theorem c1_amended :
    (∀ v : String, v ≠ "" → specValidNumeral (cleanNumeric v).data = true →
      parseNumber v = decimalValue (cleanNumeric v).data) ∧
    parseNumber "" = 0 ∧ parseNumber "abc" = 0 ∧
    parseNumber "$1,234.56" = 123456 / 100 ∧ parseNumber "1.2.3" = 6 / 5 := by
  refine ⟨fun v hv hval => parseNumber_spec_valid hv hval, by decide, by decide, ?_, ?_⟩
  · have hp : floatParts (cleanNumeric "$1,234.56") =
        some ⟨false, ['1', '2', '3', '4'], ['5', '6'], 0⟩ := by decide
    show (jsParseFloat (cleanNumeric "$1,234.56")).getD 0 = 123456 / 100
    rw [jsParseFloat, hp]
    show partsVal ⟨false, ['1', '2', '3', '4'], ['5', '6'], 0⟩ = 123456 / 100
    rw [partsVal_expo_zero]
    have h1 : digitsVal ['1', '2', '3', '4'] = 1234 := by decide
    have h2 : digitsVal ['5', '6'] = 56 := by decide
    rw [fracVal, h1, h2]
    norm_num [pow10]
  · have hp : floatParts (cleanNumeric "1.2.3") = some ⟨false, ['1'], ['2'], 0⟩ := by decide
    show (jsParseFloat (cleanNumeric "1.2.3")).getD 0 = 6 / 5
    rw [jsParseFloat, hp]
    show partsVal ⟨false, ['1'], ['2'], 0⟩ = 6 / 5
    rw [partsVal_expo_zero]
    have h1 : digitsVal ['1'] = 1 := by decide
    have h2 : digitsVal ['2'] = 2 := by decide
    rw [fracVal, h1, h2]
    norm_num [pow10]

/-- C1 witness: the amended statement applied at the concrete input "12.5". -/
theorem c1_witness : parseNumber "12.5" = decimalValue (cleanNumeric "12.5").data :=
  c1_amended.1 "12.5" (by decide) (by decide)


/-! Summation helpers. -/

theorem foldl_add_eq_sum {α : Type} (g : α → ℚ) (l : List α) (a : ℚ) :
    l.foldl (fun s c => s + g c) a = a + (l.map g).sum := by
  induction l generalizing a with
  | nil => simp
  | cons c t ih => simp [ih, add_assoc]

theorem sum_zero_of_nonneg {α : Type} (g : α → ℚ) (l : List α)
    (hnn : ∀ x ∈ l, 0 ≤ g x) (h0 : (l.map g).sum = 0) : ∀ x ∈ l, g x = 0 := by
  induction l with
  | nil => intro x hx; cases hx
  | cons c t ih =>
    rw [List.map_cons, List.sum_cons] at h0
    have hc : 0 ≤ g c := hnn c (List.mem_cons_self _ _)
    have ht : 0 ≤ (t.map g).sum := by
      apply List.sum_nonneg
      intro q hq
      obtain ⟨x, hx, rfl⟩ := List.mem_map.mp hq
      exact hnn x (List.mem_cons_of_mem _ hx)
    have hc0 : g c = 0 := by linarith
    have ht0 : (t.map g).sum = 0 := by linarith
    intro x hx
    rcases List.mem_cons.mp hx with h | h
    · subst h; exact hc0
    · exact ih (fun y hy => hnn y (List.mem_cons_of_mem _ hy)) ht0 x h

/-- Closed form of the platform-performance fold: at each key the map holds the
base value plus the sums of the contributions of the records with that
platform, and is untouched when no record has that platform. -/
theorem ppFold_char (l2 : List DbCampaign) :
    ∀ (acc : String → Option (ℚ × ℚ)) (p : String),
    List.foldl ppUpd acc l2 p =
      if (l2.filter (fun c => c.platform = p)).isEmpty then acc p
      else
        some (((acc p).getD (0, 0)).1 +
            ((l2.filter (fun c => c.platform = p)).map (fun c => orZero c.amount_spent)).sum,
          ((acc p).getD (0, 0)).2 +
            ((l2.filter (fun c => c.platform = p)).map (fun c => orZero c.revenue)).sum) := by
  induction l2 with
  | nil => intro acc p; simp
  | cons c t ih =>
    intro acc p
    rw [List.foldl_cons, ih]
    by_cases hc : c.platform = p
    · have hfil : (c :: t).filter (fun x => x.platform = p) =
          c :: t.filter (fun x => x.platform = p) := by
        simp [List.filter_cons, hc]
      have hacc : ppUpd acc c p =
          some (((acc p).getD (0, 0)).1 + orZero c.amount_spent,
            ((acc p).getD (0, 0)).2 + orZero c.revenue) := by
        simp [ppUpd, hc]
      rw [hacc, hfil]
      by_cases hemp : (t.filter (fun x => x.platform = p)).isEmpty
      · have hnil : t.filter (fun x => x.platform = p) = [] := by
          simpa using hemp
        rw [if_pos hemp, hnil]
        simp
      · rw [if_neg hemp]
        simp only [List.isEmpty_cons, List.map_cons, List.sum_cons, Option.getD_some]
        rw [if_neg (by simp)]
        rw [add_assoc, add_assoc]
    · have hfil : (c :: t).filter (fun x => x.platform = p) =
          t.filter (fun x => x.platform = p) := by
        simp [List.filter_cons, hc]
      have hacc : ppUpd acc c p = acc p := by
        simp only [ppUpd]
        rw [if_neg (fun h => hc h.symm)]
      rw [hacc, hfil]

/-- C2: counterexample.  A collection whose total spend is zero only because a
negative and a positive spend cancel: the global KPI spend is 0, yet the
per-platform ROAS computed inside the product metrics of "x" is 1, not 0. -/
theorem c2_counterexample :
    totalSpendDb [⟨"facebook", "x1", some 5, some 5, some 0⟩,
        ⟨"tiktok", "x2", some (-5), some 0, some 0⟩] = 0 ∧
    platformPerformance [⟨"facebook", "x1", some 5, some 5, some 0⟩,
        ⟨"tiktok", "x2", some (-5), some 0, some 0⟩] "x" "facebook" = some (5, 5) ∧
    perfRoas 5 5 = JSNum.num 1 ∧ JSNum.num 1 ≠ JSNum.num 0 := by
  refine ⟨?_, ?_, ?_, by decide⟩
  · show (0 : ℚ) + orZero (some 5) + orZero (some (-5)) = 0
    norm_num [orZero]
  · have hpc : productCampaigns [⟨"facebook", "x1", some 5, some 5, some 0⟩,
        ⟨"tiktok", "x2", some (-5), some 0, some 0⟩] "x" =
        [⟨"facebook", "x1", some 5, some 5, some 0⟩,
         ⟨"tiktok", "x2", some (-5), some 0, some 0⟩] := by decide
    rw [platformPerformance, hpc]
    show ppUpd (ppUpd (fun _ => none) ⟨"facebook", "x1", some 5, some 5, some 0⟩)
        ⟨"tiktok", "x2", some (-5), some 0, some 0⟩ "facebook" = some (5, 5)
    have h1 : ("facebook" : String) ≠ "tiktok" := by decide
    norm_num [ppUpd, orZero, h1]
  · norm_num [perfRoas, jsDiv]

/-- C2 (amended): for every collection of campaign records whose total spend is
zero and whose individual record spends are nonnegative, every computed ROAS —
the global KPI ROAS, the per-product ROAS, and the per-platform ROAS inside a
product's metrics — is exactly `JSNum.num 0`: never NaN, never Infinity, and no
divide-by-zero occurs.  (With mixed-sign spends summing to zero only the global
ROAS guard applies, as the counterexample shows.) -/
theorem c2_amended (l : List DbCampaign) (pname platform : String)
    (h0 : totalSpendDb l = 0)
    (hnn : ∀ c ∈ l, 0 ≤ orZero c.amount_spent) :
    roasKpi l = JSNum.num 0 ∧ productRoas l pname = JSNum.num 0 ∧
    ∀ s r, platformPerformance l pname platform = some (s, r) →
      perfRoas s r = JSNum.num 0 := by
  have hsum : (l.map (fun c => orZero c.amount_spent)).sum = 0 := by
    have h := foldl_add_eq_sum (fun c => orZero c.amount_spent) l 0
    rw [totalSpendDb] at h0
    rw [h0, zero_add] at h
    exact h.symm
  have hz : ∀ c ∈ l, orZero c.amount_spent = 0 := sum_zero_of_nonneg _ _ hnn hsum
  have hmeml : ∀ c ∈ productCampaigns l pname, c ∈ l := fun c hc =>
    (List.mem_filter.mp hc).1
  refine ⟨?_, ?_, ?_⟩
  · rw [roasKpi, h0, if_neg (lt_irrefl 0)]
  · have hps : productSpend l pname = 0 := by
      rw [productSpend, foldl_add_eq_sum, zero_add]
      exact List.sum_eq_zero fun q hq => by
        obtain ⟨c, hc, rfl⟩ := List.mem_map.mp hq
        exact hz c (hmeml c hc)
    rw [productRoas, hps, if_neg (lt_irrefl 0)]
  · intro s r hpp
    rw [platformPerformance, ppFold_char] at hpp
    by_cases hemp : ((productCampaigns l pname).filter
        (fun c => c.platform = platform)).isEmpty
    · rw [if_pos hemp] at hpp
      cases hpp
    · rw [if_neg hemp] at hpp
      have hs : s = 0 := by
        have h1 := (Option.some.injEq _ _ ▸ hpp : _)
        have h2 : s = (((fun _ => (none : Option (ℚ × ℚ))) platform).getD (0, 0)).1 +
            (((productCampaigns l pname).filter (fun c => c.platform = platform)).map
              (fun c => orZero c.amount_spent)).sum := by
          have := congrArg Prod.fst (Option.some.inj hpp)
          exact this.symm
        rw [h2]
        have hz2 : (((productCampaigns l pname).filter
            (fun c => c.platform = platform)).map (fun c => orZero c.amount_spent)).sum = 0 :=
          List.sum_eq_zero fun q hq => by
            obtain ⟨c, hc, rfl⟩ := List.mem_map.mp hq
            exact hz c (hmeml c (List.mem_filter.mp hc).1)
        rw [hz2]
        simp
      rw [hs, perfRoas, if_neg (lt_irrefl 0)]

/-- C2 witness: the amended statement applied at a concrete one-record
collection with zero spend. -/
theorem c2_witness :
    roasKpi [⟨"facebook", "w", some 0, some 7, some 0⟩] = JSNum.num 0 ∧
    productRoas [⟨"facebook", "w", some 0, some 7, some 0⟩] "w" = JSNum.num 0 ∧
    ∀ s r, platformPerformance [⟨"facebook", "w", some 0, some 7, some 0⟩] "w" "facebook" =
      some (s, r) → perfRoas s r = JSNum.num 0 :=
  c2_amended [⟨"facebook", "w", some 0, some 7, some 0⟩] "w" "facebook"
    (by show (0 : ℚ) + orZero (some 0) = 0; simp [orZero])
    (by intro c hc; rw [List.mem_singleton] at hc; subst hc; simp [orZero])

/-! Substring structure of `containsSub` (JS `String.prototype.includes`). -/

theorem leadsList_iff {needle hay : List Char} :
    leadsList needle hay = true ↔ ∃ r, hay = needle ++ r := by
  induction needle generalizing hay with
  | nil =>
    simp only [leadsList, List.nil_append]
    exact ⟨fun _ => ⟨hay, rfl⟩, fun _ => trivial⟩
  | cons a as ih =>
    cases hay with
    | nil =>
      simp only [leadsList, List.cons_append]
      constructor
      · intro h; cases h
      · rintro ⟨r, heq⟩; cases heq
    | cons b bs =>
      simp only [leadsList, Bool.and_eq_true, beq_iff_eq, ih, List.cons_append]
      constructor
      · rintro ⟨rfl, r, rfl⟩; exact ⟨r, rfl⟩
      · rintro ⟨r, heq⟩
        injection heq with h1 h2
        exact ⟨h1.symm, r, h2⟩

theorem containsSub_iff {hay needle : List Char} :
    containsSub hay needle = true ↔ ∃ l r, hay = l ++ needle ++ r := by
  induction hay with
  | nil =>
    simp only [containsSub]
    constructor
    · intro h
      have hn : needle = [] := by simpa using h
      exact ⟨[], [], by simp [hn]⟩
    · rintro ⟨l, r, heq⟩
      have := heq.symm
      rcases List.append_eq_nil.mp (List.append_eq_nil.mp this |>.1) with ⟨h1, h2⟩
      simp [h2]
  | cons c t ih =>
    simp only [containsSub, Bool.or_eq_true, leadsList_iff, ih]
    constructor
    · rintro (⟨r, heq⟩ | ⟨l, r, heq⟩)
      · exact ⟨[], r, by simpa using heq⟩
      · exact ⟨c :: l, r, by simp [heq]⟩
    · rintro ⟨l, r, heq⟩
      cases l with
      | nil => exact Or.inl ⟨r, by simpa using heq⟩
      | cons x xs =>
        rw [List.cons_append, List.cons_append] at heq
        injection heq with h1 h2
        exact Or.inr ⟨xs, r, by rw [h2]⟩

/-- C10: a campaign record contributes to a product's totals exactly when its
product_name is non-empty and the product's name occurs case-insensitively as a
contiguous substring of it; consequently one record can be counted for several
products (here "AlphaBeta" counts for both "Alpha" and "Beta"), so product
totals are not a partition of the record set. -/
theorem c10_substring_matching :
    (∀ (campaigns : List DbCampaign) (productName : String) (c : DbCampaign),
      c ∈ productCampaigns campaigns productName ↔
        c ∈ campaigns ∧ c.product_name ≠ "" ∧
          ∃ l r, (jsToLower c.product_name).data =
            l ++ (jsToLower productName).data ++ r) ∧
    (⟨"facebook", "AlphaBeta", some 1, some 2, some 3⟩ : DbCampaign) ∈
      productCampaigns [⟨"facebook", "AlphaBeta", some 1, some 2, some 3⟩] "Alpha" ∧
    (⟨"facebook", "AlphaBeta", some 1, some 2, some 3⟩ : DbCampaign) ∈
      productCampaigns [⟨"facebook", "AlphaBeta", some 1, some 2, some 3⟩] "Beta" := by
  refine ⟨?_, by decide, by decide⟩
  intro campaigns productName c
  rw [productCampaigns, List.mem_filter]
  constructor
  · rintro ⟨hmem, hcond⟩
    obtain ⟨ha, hb⟩ := Bool.and_eq_true _ _ |>.mp hcond
    refine ⟨hmem, ?_, containsSub_iff.mp hb⟩
    intro he
    rw [he] at ha
    simp at ha
  · rintro ⟨hmem, hne, hsub⟩
    exact ⟨hmem, Bool.and_eq_true _ _ |>.mpr ⟨by simp [hne], containsSub_iff.mpr hsub⟩⟩

/-- Closed form of the dashboard platform-breakdown fold: at each key the map
holds the base value plus the sums of the contributions of the records whose
key (`campaign.platform || 'unknown'`) equals it, and is untouched otherwise. -/
theorem pdFold_char (l : List DbCampaign) :
    ∀ (acc : String → Option PTotals) (p : String),
    List.foldl pdUpd acc l p =
      if (l.filter (fun c => pKey c = p)).isEmpty then acc p
      else
        some ⟨((acc p).getD ⟨0, 0, 0⟩).spend +
            ((l.filter (fun c => pKey c = p)).map (fun c => orZero c.amount_spent)).sum,
          ((acc p).getD ⟨0, 0, 0⟩).revenue +
            ((l.filter (fun c => pKey c = p)).map (fun c => orZero c.revenue)).sum,
          ((acc p).getD ⟨0, 0, 0⟩).conversions +
            ((l.filter (fun c => pKey c = p)).map (fun c => orZero c.conversions)).sum⟩ := by
  induction l with
  | nil => intro acc p; simp
  | cons c t ih =>
    intro acc p
    rw [List.foldl_cons, ih]
    by_cases hc : pKey c = p
    · have hfil : (c :: t).filter (fun x => pKey x = p) =
          c :: t.filter (fun x => pKey x = p) := by
        simp [List.filter_cons, hc]
      have hacc : pdUpd acc c p =
          some ⟨((acc p).getD ⟨0, 0, 0⟩).spend + orZero c.amount_spent,
            ((acc p).getD ⟨0, 0, 0⟩).revenue + orZero c.revenue,
            ((acc p).getD ⟨0, 0, 0⟩).conversions + orZero c.conversions⟩ := by
        simp [pdUpd, hc]
      rw [hacc, hfil]
      by_cases hemp : (t.filter (fun x => pKey x = p)).isEmpty
      · have hnil : t.filter (fun x => pKey x = p) = [] := by simpa using hemp
        rw [if_pos hemp, hnil]
        simp
      · rw [if_neg hemp]
        simp only [List.isEmpty_cons, List.map_cons, List.sum_cons, Option.getD_some]
        rw [if_neg (by simp)]
        rw [add_assoc, add_assoc, add_assoc]
    · have hfil : (c :: t).filter (fun x => pKey x = p) =
          t.filter (fun x => pKey x = p) := by
        simp [List.filter_cons, hc]
      have hacc : pdUpd acc c p = acc p := by
        simp only [pdUpd]
        rw [if_neg (fun h => hc h.symm)]
      rw [hacc, hfil]

/-- C6: counterexample.  A record with the unrecognized platform "snapchat" is
accumulated under its own "snapchat" key; nothing is put under "unknown". -/
theorem c6_counterexample :
    platformData [⟨"snapchat", "", some 5, some 2, some 1⟩] "unknown" = none ∧
    platformData [⟨"snapchat", "", some 5, some 2, some 1⟩] "snapchat" =
      some ⟨5, 2, 1⟩ ∧
    ("snapchat" : String) ∉ ["facebook", "tiktok", "google"] := by
  refine ⟨?_, ?_, by decide⟩
  · show pdUpd (fun _ => none) ⟨"snapchat", "", some 5, some 2, some 1⟩ "unknown" = none
    have h1 : ("unknown" : String) ≠ "snapchat" := by decide
    simp [pdUpd, pKey, h1]
  · show pdUpd (fun _ => none) ⟨"snapchat", "", some 5, some 2, some 1⟩ "snapchat" =
      some ⟨5, 2, 1⟩
    have h2 : ("snapchat" : String) ≠ "" := by decide
    norm_num [pdUpd, pKey, orZero, h2]

/-- C6 (amended): in the dashboard platform breakdown only records with a falsy
(null/empty) platform are bucketed under "unknown"; a record with any non-empty
platform — recognized or not — is accumulated under its own platform key, and no
record is dropped: for every key the breakdown holds exactly the sums of the
records whose key `campaign.platform || 'unknown'` equals it. -/
theorem c6_amended :
    ∀ (l : List DbCampaign) (p : String),
    platformData l p =
      if (l.filter (fun c => pKey c = p)).isEmpty then none
      else
        some ⟨((l.filter (fun c => pKey c = p)).map (fun c => orZero c.amount_spent)).sum,
          ((l.filter (fun c => pKey c = p)).map (fun c => orZero c.revenue)).sum,
          ((l.filter (fun c => pKey c = p)).map (fun c => orZero c.conversions)).sum⟩ := by
  intro l p
  rw [platformData, pdFold_char]
  by_cases h : (l.filter (fun c => pKey c = p)).isEmpty
  · rw [if_pos h, if_pos h]
  · rw [if_neg h, if_neg h]
    simp

/-! The upload pipeline claims. -/

/-- Reduction of the products-router upload handler once the platform is valid
and the row list non-empty: the outcome is decided by the two store writes. -/
theorem uploadHandler_valid_nonempty (u f platform : String) (rows : List SRow)
    (ie he : Option String) (hp : validPlatforms.contains platform = true)
    (hr : ¬ rows.length = 0) :
    uploadHandler u f platform rows ie he =
      match ie with
      | some _ => ⟨UploadResponse.serverError "Failed to save data to database", [], []⟩
      | none =>
        match he with
        | some _ => ⟨UploadResponse.success (rows.map (processRow u f platform)).length,
            rows.map (processRow u f platform), []⟩
        | none => ⟨UploadResponse.success (rows.map (processRow u f platform)).length,
            rows.map (processRow u f platform),
            [⟨u, f, platform, (rows.map (processRow u f platform)).length, "completed"⟩]⟩ := by
  rw [uploadHandler, hp]
  rw [if_neg (by decide), if_neg hr]

/-- C3: an upload whose CSV parses to zero data rows, under any valid platform,
answers the 400 validation error "CSV file is empty or invalid" and writes no
campaign records and no history entry, whatever the store would have done. -/
theorem c3_empty_csv (u f platform : String) (ie he : Option String)
    (hp : validPlatforms.contains platform = true) :
    uploadHandler u f platform [] ie he =
      ⟨UploadResponse.badRequest "CSV file is empty or invalid", [], []⟩ := by
  rw [uploadHandler, hp]
  rfl

/-- C3 witness: the empty upload at platform "facebook". -/
theorem c3_witness :
    uploadHandler "u" "f.csv" "facebook" [] none none =
      ⟨UploadResponse.badRequest "CSV file is empty or invalid", [], []⟩ :=
  c3_empty_csv "u" "f.csv" "facebook" none none (by decide)

/-- C4: counterexample.  On the cited server.js /api/upload endpoint an upload
declaring the platform "snapchat" is not rejected: no validation error occurs,
and a campaign_reports row is written tagged "snapchat". -/
theorem c4_counterexample :
    serverUpload "report.csv" (some "snapchat") [[("Campaign name", "A - B")]] none =
      ⟨SResponse.success 1,
        [⟨"snapchat", "report.csv", [[("Campaign name", "A - B")]], true⟩]⟩ ∧
    validPlatforms.contains "snapchat" = false :=
  ⟨rfl, by decide⟩

/-- C4 (amended): the products-router upload handler rejects every platform
outside {facebook, tiktok, google} with the 400 error "Invalid platform
specified" — independent of the parsed file content and of the store, so
before any parsing effect — and writes nothing; the server.js /api/upload
variant performs no platform validation and inserts the report row whatever
the declared platform. -/
theorem c4_amended (u f platform : String) (rows : List SRow) (ie he : Option String)
    (hp : validPlatforms.contains platform = false) :
    uploadHandler u f platform rows ie he =
      ⟨UploadResponse.badRequest "Invalid platform specified", [], []⟩ ∧
    serverUpload f (some platform) rows none =
      ⟨SResponse.success rows.length, [⟨platform, f, rows, true⟩]⟩ := by
  constructor
  · rw [uploadHandler, hp]
    rfl
  · rfl

/-- C4 witness: the amended statement at platform "snapchat". -/
theorem c4_witness :
    uploadHandler "u" "f.csv" "snapchat" [] none none =
      ⟨UploadResponse.badRequest "Invalid platform specified", [], []⟩ ∧
    serverUpload "f.csv" (some "snapchat") [] none =
      ⟨SResponse.success 0, [⟨"snapchat", "f.csv", [], true⟩]⟩ :=
  c4_amended "u" "f.csv" "snapchat" [] none none (by decide)

/-- C5: when the bulk insert succeeds, the upload reports success with the row
count and the processed records regardless of whether the history write
succeeds or fails; when the bulk insert itself fails, the upload aborts with
the 500 error and no success response and nothing written. -/
theorem c5_history_best_effort (u f platform : String) (rows : List SRow)
    (he : Option String) (e : String)
    (hp : validPlatforms.contains platform = true) (hr : rows ≠ []) :
    (uploadHandler u f platform rows none he).response =
      UploadResponse.success rows.length ∧
    (uploadHandler u f platform rows none he).insertedRecords =
      rows.map (processRow u f platform) ∧
    uploadHandler u f platform rows (some e) he =
      ⟨UploadResponse.serverError "Failed to save data to database", [], []⟩ := by
  have hlen : ¬ rows.length = 0 := by
    intro h
    exact hr (List.length_eq_zero.mp h)
  rw [uploadHandler_valid_nonempty u f platform rows none he hp hlen,
    uploadHandler_valid_nonempty u f platform rows (some e) he hp hlen]
  cases he with
  | none => exact ⟨by rw [List.length_map], rfl, rfl⟩
  | some e2 => exact ⟨by rw [List.length_map], rfl, rfl⟩

/-- C5 witness: a one-row upload with a failing history write still answers
success, and the same upload with a failing insert answers the 500. -/
theorem c5_witness :
    (uploadHandler "u" "f.csv" "facebook" [[("Campaign name", "A")]] none
      (some "history down")).response = UploadResponse.success 1 ∧
    (uploadHandler "u" "f.csv" "facebook" [[("Campaign name", "A")]] none
      (some "history down")).insertedRecords =
      [[("Campaign name", "A")]].map (processRow "u" "f.csv" "facebook") ∧
    uploadHandler "u" "f.csv" "facebook" [[("Campaign name", "A")]]
      (some "db down") (some "history down") =
      ⟨UploadResponse.serverError "Failed to save data to database", [], []⟩ :=
  c5_history_best_effort "u" "f.csv" "facebook" [[("Campaign name", "A")]]
    (some "history down") "db down" (by decide) (by decide)

/-- C9: counterexample.  Uploading the scenario's CSV row through the products
router yields one record whose product_name is "" — the ingestion path reads
product_name only from explicit product columns and never splits the campaign
name — not "ProductX" as claimed. -/
theorem c9_counterexample :
    ((uploadHandler "u1" "f.csv" "facebook" [row9] none none).insertedRecords.map
      (fun r => r.product_name)) = [""] ∧ ("" : String) ≠ "ProductX" :=
  ⟨rfl, by decide⟩

/-- C9 (amended): uploading headers `Campaign name, Amount spent (CAD),
Purchases` with the single row "ProductX - Summer", "$12.50", "3" for platform
facebook yields exactly one record with campaign_name "ProductX - Summer",
amount_spent 12.50 and conversions 3, but product_name "" (no product column
is present, and ingestion does not derive it from the campaign name); the
" - "-splitting derivation that produces "ProductX" lives in the server.js
product-listing read path. -/
theorem c9_amended :
    (uploadHandler "u1" "f.csv" "facebook" [row9] none none).response =
      UploadResponse.success 1 ∧
    (uploadHandler "u1" "f.csv" "facebook" [row9] none none).insertedRecords =
      [{ user_id := "u1", file_name := "f.csv", platform := "facebook",
         campaign_name := "ProductX - Summer", product_name := "",
         amount_spent := 25 / 2, revenue := 0, conversions := 3, clicks := 0,
         impressions := 0, raw_data := row9 }] ∧
    deriveProductName "ProductX - Summer" = "ProductX" := by
  have h1 : parseNumber "$12.50" = 25 / 2 := by
    have hp : floatParts (cleanNumeric "$12.50") =
        some ⟨false, ['1', '2'], ['5', '0'], 0⟩ := by decide
    show (jsParseFloat (cleanNumeric "$12.50")).getD 0 = 25 / 2
    rw [jsParseFloat, hp]
    show partsVal ⟨false, ['1', '2'], ['5', '0'], 0⟩ = 25 / 2
    rw [partsVal_expo_zero]
    have hd1 : digitsVal ['1', '2'] = 12 := by decide
    have hd2 : digitsVal ['5', '0'] = 50 := by decide
    rw [fracVal, hd1, hd2]
    norm_num [pow10]
  have h2 : parseNumber "3" = 3 := by
    have hp : floatParts (cleanNumeric "3") = some ⟨false, ['3'], [], 0⟩ := by decide
    show (jsParseFloat (cleanNumeric "3")).getD 0 = 3
    rw [jsParseFloat, hp]
    show partsVal ⟨false, ['3'], [], 0⟩ = 3
    rw [partsVal_expo_zero]
    have hd : digitsVal ['3'] = 3 := by decide
    have hd0 : digitsVal ([] : List Char) = 0 := rfl
    rw [fracVal, hd, hd0]
    norm_num [pow10]
  refine ⟨rfl, ?_, by decide⟩
  rw [show (uploadHandler "u1" "f.csv" "facebook" [row9] none none).insertedRecords =
    [processRow "u1" "f.csv" "facebook" row9] from rfl]
  refine congrArg (fun r => [r]) ?_
  rw [processRow]
  simp only [CampaignRecord.mk.injEq]
  refine ⟨?_, ?_, ?_, ?_, ?_, ?_, ?_, ?_, ?_, ?_, ?_⟩ <;> trivial

/-! Stable descending sort: permutation, sortedness, stability. -/

theorem insDesc_perm {α : Type} (f : α → ℚ) (a : α) :
    ∀ l : List α, (insDesc f a l).Perm (a :: l) := by
  intro l
  induction l with
  | nil => exact List.Perm.refl _
  | cons b t ih =>
    rw [insDesc]
    by_cases h : f a < f b
    · rw [if_pos h]
      exact (ih.cons b).trans (List.Perm.swap a b t)
    · rw [if_neg h]

theorem insDesc_sorted {α : Type} (f : α → ℚ) (a : α) {l : List α}
    (h : l.Pairwise (fun x y => f y ≤ f x)) :
    (insDesc f a l).Pairwise (fun x y => f y ≤ f x) := by
  induction l with
  | nil => simp [insDesc]
  | cons b t ih =>
    rw [insDesc]
    rcases List.pairwise_cons.mp h with ⟨hb, ht⟩
    by_cases hab : f a < f b
    · rw [if_pos hab]
      refine List.pairwise_cons.mpr ⟨?_, ih ht⟩
      intro x hx
      rcases List.mem_cons.mp ((insDesc_perm f a t).mem_iff.mp hx) with rfl | hxt
      · exact le_of_lt hab
      · exact hb x hxt
    · rw [if_neg hab]
      refine List.pairwise_cons.mpr ⟨?_, h⟩
      intro x hx
      rcases List.mem_cons.mp hx with rfl | hxt
      · exact not_lt.mp hab
      · exact le_trans (hb x hxt) (not_lt.mp hab)

theorem insDesc_filter {α : Type} (f : α → ℚ) (a : α) (r : ℚ) :
    ∀ l : List α, (insDesc f a l).filter (fun x => f x = r) =
      if f a = r then a :: l.filter (fun x => f x = r)
      else l.filter (fun x => f x = r) := by
  intro l
  induction l with
  | nil =>
    by_cases h : f a = r <;> simp [insDesc, List.filter, h]
  | cons b t ih =>
    rw [insDesc]
    by_cases hab : f a < f b
    · rw [if_pos hab]
      by_cases har : f a = r
      · have hbr : ¬ f b = r := by
          intro hb
          rw [har] at hab
          rw [hb] at hab
          exact lt_irrefl r hab
        simp [List.filter_cons, hbr, ih, har]
      · by_cases hbr : f b = r <;> simp [List.filter_cons, hbr, ih, har]
    · rw [if_neg hab]
      by_cases har : f a = r <;> simp [List.filter_cons, har]

theorem sortDescBy_perm {α : Type} (f : α → ℚ) :
    ∀ l : List α, (sortDescBy f l).Perm l := by
  intro l
  induction l with
  | nil => exact List.Perm.refl _
  | cons a t ih =>
    rw [sortDescBy, List.foldr_cons]
    exact (insDesc_perm f a _).trans (ih.cons a)

theorem sortDescBy_sorted {α : Type} (f : α → ℚ) :
    ∀ l : List α, (sortDescBy f l).Pairwise (fun x y => f y ≤ f x) := by
  intro l
  induction l with
  | nil => simp [sortDescBy]
  | cons a t ih =>
    rw [sortDescBy, List.foldr_cons]
    exact insDesc_sorted f a ih

theorem sortDescBy_stable {α : Type} (f : α → ℚ) (r : ℚ) :
    ∀ l : List α, (sortDescBy f l).filter (fun x => f x = r) =
      l.filter (fun x => f x = r) := by
  intro l
  induction l with
  | nil => rfl
  | cons a t ih =>
    rw [sortDescBy, List.foldr_cons]
    rw [show List.foldr (insDesc f) [] t = sortDescBy f t from rfl]
    rw [insDesc_filter, ih]
    by_cases har : f a = r <;> simp [List.filter_cons, har]

/-- C7: the sorted product view and the sorted platform view are permutations
of their inputs ordered descending by revenue, and entries with equal revenue
retain their relative input order (for every revenue value, filtering the
output at that value gives exactly the input's subsequence): the sort is
stable, so equal-revenue output is deterministic. -/
theorem c7_sort_stable_desc :
    (∀ qs : List PEntry,
      (sortProducts qs).Perm qs ∧
      (sortProducts qs).Pairwise (fun x y => y.totalRevenue ≤ x.totalRevenue) ∧
      ∀ r : ℚ, (sortProducts qs).filter (fun x => x.totalRevenue = r) =
        qs.filter (fun x => x.totalRevenue = r)) ∧
    (∀ ps : List PlatformStat,
      (sortPlatforms ps).Perm ps ∧
      (sortPlatforms ps).Pairwise (fun x y => y.revenue ≤ x.revenue) ∧
      ∀ r : ℚ, (sortPlatforms ps).filter (fun x => x.revenue = r) =
        ps.filter (fun x => x.revenue = r)) :=
  ⟨fun qs => ⟨sortDescBy_perm _ qs, sortDescBy_sorted _ qs,
      fun r => sortDescBy_stable _ r qs⟩,
    fun ps => ⟨sortDescBy_perm _ ps, sortDescBy_sorted _ ps,
      fun r => sortDescBy_stable _ r ps⟩⟩

/-! Order-invariance of the aggregation folds. -/

theorem isEmpty_eq_of_perm {α : Type} {a b : List α} (h : a.Perm b) :
    a.isEmpty = b.isEmpty := by
  have hl := h.length_eq
  cases a <;> cases b <;> simp_all

/-- The entry update `applyC` written with the per-row contribution
functions. -/
theorem applyC_fields (rpc : String → ℚ) (x : String × SRow) (e : PEntry) :
    applyC rpc x e =
      ⟨e.name, e.totalRevenue + rowRev rpc x,
        e.facebookRevenue + rowPlatRev rpc "Facebook" x,
        e.tiktokRevenue + rowPlatRev rpc "TikTok" x,
        e.googleRevenue + rowPlatRev rpc "Google" x,
        e.totalSpend + rowSpend x, e.totalConversions + rowConv x,
        (if 0 < e.totalSpend + rowSpend x
          then (e.totalRevenue + rowRev rpc x) / (e.totalSpend + rowSpend x) else 0),
        e.revenuePerConversion, e.bestPlatform⟩ := by
  rw [applyC]
  simp only [rowPlatRev, rowRev, PEntry.mk.injEq]
  by_cases h1 : x.1 = "Facebook" <;> by_cases h2 : x.1 = "TikTok" <;>
    by_cases h3 : x.1 = "Google" <;> simp [h1, h2, h3]

/-- At its own (non-empty) key, one product-fold step is `applyStep`. -/
theorem pmUpd_at_key (rpc : String → ℚ) (acc : String → Option PEntry)
    (x : String × SRow) (p : String) (hp : p ≠ "") (hx : rowName x = p) :
    pmUpd rpc acc x p = applyStep rpc p (acc p) x := by
  subst hx
  simp only [pmUpd, if_neg hp, if_true]
  rfl

/-- Restriction of the product fold to one non-empty key: only the rows whose
derived product name is that key act on it, through `applyStep`. -/
theorem pmFold_char (rpc : String → ℚ) (rows : List (String × SRow)) :
    ∀ (acc : String → Option PEntry) (p : String), p ≠ "" →
    List.foldl (pmUpd rpc) acc rows p =
      List.foldl (applyStep rpc p) (acc p)
        (rows.filter (fun pr => rowName pr = p)) := by
  induction rows with
  | nil => intro acc p hp; rfl
  | cons x t ih =>
    intro acc p hp
    rw [List.foldl_cons, ih _ _ hp]
    by_cases hx : rowName x = p
    · have hfil : (x :: t).filter (fun pr => rowName pr = p) =
          x :: t.filter (fun pr => rowName pr = p) := by
        simp [List.filter_cons, hx]
      rw [hfil, List.foldl_cons]
      congr 1
      exact pmUpd_at_key rpc acc x p hp hx
    · have hfil : (x :: t).filter (fun pr => rowName pr = p) =
          t.filter (fun pr => rowName pr = p) := by
        simp [List.filter_cons, hx]
      rw [hfil]
      congr 1
      by_cases hxe : rowName x = ""
      · simp [pmUpd, hxe]
      · simp only [pmUpd, if_neg hxe]
        rw [if_neg (fun h2 => hx h2.symm)]

/-- Closed form of the restricted fold from an existing entry: field-wise sums
of the contributing rows, with the ROAS recomputed from the final totals. -/
theorem applyFold_some (rpc : String → ℚ) (p : String) :
    ∀ fs : List (String × SRow), fs ≠ [] → ∀ e : PEntry,
    List.foldl (applyStep rpc p) (some e) fs =
      some ⟨e.name, e.totalRevenue + (fs.map (rowRev rpc)).sum,
        e.facebookRevenue + (fs.map (rowPlatRev rpc "Facebook")).sum,
        e.tiktokRevenue + (fs.map (rowPlatRev rpc "TikTok")).sum,
        e.googleRevenue + (fs.map (rowPlatRev rpc "Google")).sum,
        e.totalSpend + (fs.map rowSpend).sum,
        e.totalConversions + (fs.map rowConv).sum,
        (if 0 < e.totalSpend + (fs.map rowSpend).sum
          then (e.totalRevenue + (fs.map (rowRev rpc)).sum) /
            (e.totalSpend + (fs.map rowSpend).sum)
          else 0),
        e.revenuePerConversion, e.bestPlatform⟩ := by
  intro fs
  induction fs with
  | nil => intro h; cases h rfl
  | cons x t ih =>
    intro _ e
    rw [List.foldl_cons,
      show applyStep rpc p (some e) x = some (applyC rpc x e) from rfl,
      applyC_fields]
    cases t with
    | nil =>
      show some _ = _
      simp [add_assoc]
    | cons y t2 =>
      rw [ih (List.cons_ne_nil y t2)]
      dsimp only
      simp only [List.map_cons, List.sum_cons, add_assoc]
    
/-- Closed form of the restricted fold from an absent entry: the first
contributing row creates the default entry for the key. -/
theorem applyFold_none (rpc : String → ℚ) (p : String) (fs : List (String × SRow))
    (hne : fs ≠ []) :
    List.foldl (applyStep rpc p) none fs =
      some ⟨p, (fs.map (rowRev rpc)).sum,
        (fs.map (rowPlatRev rpc "Facebook")).sum,
        (fs.map (rowPlatRev rpc "TikTok")).sum,
        (fs.map (rowPlatRev rpc "Google")).sum,
        (fs.map rowSpend).sum, (fs.map rowConv).sum,
        (if 0 < (fs.map rowSpend).sum
          then (fs.map (rowRev rpc)).sum / (fs.map rowSpend).sum else 0),
        rpc p, "Facebook"⟩ := by
  cases fs with
  | nil => cases hne rfl
  | cons x t =>
    have h0 : List.foldl (applyStep rpc p) none (x :: t) =
        List.foldl (applyStep rpc p) (some (defaultEntry rpc p)) (x :: t) := by
      rw [List.foldl_cons, List.foldl_cons]
      rfl
    rw [h0, applyFold_some rpc p (x :: t) (List.cons_ne_nil x t) (defaultEntry rpc p)]
    simp [defaultEntry]

/-- The product map never holds an entry at the empty key. -/
theorem productMap_empty_key (rpc : String → ℚ) (rows : List (String × SRow)) :
    productMap rpc rows "" = none := by
  rw [productMap]
  have h : ∀ acc : String → Option PEntry,
      List.foldl (pmUpd rpc) acc rows "" = acc "" := by
    induction rows with
    | nil => intro acc; rfl
    | cons x t ih =>
      intro acc
      rw [List.foldl_cons, ih]
      by_cases hx : rowName x = ""
      · simp [pmUpd, hx]
      · simp only [pmUpd, if_neg hx]
        rw [if_neg (fun h2 => hx h2.symm)]
  exact h _

/-- Closed form of the product map at a non-empty key. -/
theorem productMap_char (rpc : String → ℚ) (rows : List (String × SRow)) (p : String)
    (hp : p ≠ "") :
    productMap rpc rows p =
      if (rows.filter (fun pr => rowName pr = p)).isEmpty then none
      else
        some ⟨p, ((rows.filter (fun pr => rowName pr = p)).map (rowRev rpc)).sum,
          ((rows.filter (fun pr => rowName pr = p)).map (rowPlatRev rpc "Facebook")).sum,
          ((rows.filter (fun pr => rowName pr = p)).map (rowPlatRev rpc "TikTok")).sum,
          ((rows.filter (fun pr => rowName pr = p)).map (rowPlatRev rpc "Google")).sum,
          ((rows.filter (fun pr => rowName pr = p)).map rowSpend).sum,
          ((rows.filter (fun pr => rowName pr = p)).map rowConv).sum,
          (if 0 < ((rows.filter (fun pr => rowName pr = p)).map rowSpend).sum
            then ((rows.filter (fun pr => rowName pr = p)).map (rowRev rpc)).sum /
              ((rows.filter (fun pr => rowName pr = p)).map rowSpend).sum
            else 0),
          rpc p, "Facebook"⟩ := by
  rw [productMap, pmFold_char rpc rows _ _ hp]
  by_cases h : (rows.filter (fun pr => rowName pr = p)).isEmpty
  · have hnil : rows.filter (fun pr => rowName pr = p) = [] := by simpa using h
    rw [hnil]
    rfl
  · have hne : rows.filter (fun pr => rowName pr = p) ≠ [] := by simpa using h
    rw [if_neg h, applyFold_none rpc p _ hne]

/-- C8: aggregation is order-independent.  For every permutation of the
campaign-record collection the dashboard's global KPI totals (spend, revenue,
conversions) and ROAS and its whole platform-breakdown map are identical, and
for every permutation of the (report platform, row) sequence the products
read path builds the identical product map; only the sorted output views
depend on order. -/
theorem c8_order_invariance (l l2 : List DbCampaign) (settings : List (String × ℚ))
    (rows rows2 : List (String × SRow)) (hl : l.Perm l2) (hr : rows.Perm rows2) :
    totalSpendDb l = totalSpendDb l2 ∧ totalRevenueDb l = totalRevenueDb l2 ∧
    totalConversionsDb l = totalConversionsDb l2 ∧ roasKpi l = roasKpi l2 ∧
    platformData l = platformData l2 ∧
    productMap (settingsMapOf settings) rows =
      productMap (settingsMapOf settings) rows2 := by
  have hs : totalSpendDb l = totalSpendDb l2 := by
    rw [totalSpendDb, totalSpendDb, foldl_add_eq_sum, foldl_add_eq_sum,
      (hl.map (fun c => orZero c.amount_spent)).sum_eq]
  have hv : totalRevenueDb l = totalRevenueDb l2 := by
    rw [totalRevenueDb, totalRevenueDb, foldl_add_eq_sum, foldl_add_eq_sum,
      (hl.map (fun c => orZero c.revenue)).sum_eq]
  have hcv : totalConversionsDb l = totalConversionsDb l2 := by
    rw [totalConversionsDb, totalConversionsDb, foldl_add_eq_sum, foldl_add_eq_sum,
      (hl.map (fun c => orZero c.conversions)).sum_eq]
  have hroas : roasKpi l = roasKpi l2 := by
    rw [roasKpi, roasKpi, hs, hv]
  have hpd : platformData l = platformData l2 := by
    funext p
    rw [platformData, platformData, pdFold_char, pdFold_char]
    have hf := hl.filter (fun c => decide (pKey c = p))
    rw [isEmpty_eq_of_perm hf,
      (hf.map (fun c => orZero c.amount_spent)).sum_eq,
      (hf.map (fun c => orZero c.revenue)).sum_eq,
      (hf.map (fun c => orZero c.conversions)).sum_eq]
  have hpm : productMap (settingsMapOf settings) rows =
      productMap (settingsMapOf settings) rows2 := by
    funext p
    by_cases hp : p = ""
    · rw [hp, productMap_empty_key, productMap_empty_key]
    · rw [productMap_char _ _ _ hp, productMap_char _ _ _ hp]
      have hf := hr.filter (fun pr => decide (rowName pr = p))
      rw [isEmpty_eq_of_perm hf,
        (hf.map (rowRev (settingsMapOf settings))).sum_eq,
        (hf.map (rowPlatRev (settingsMapOf settings) "Facebook")).sum_eq,
        (hf.map (rowPlatRev (settingsMapOf settings) "TikTok")).sum_eq,
        (hf.map (rowPlatRev (settingsMapOf settings) "Google")).sum_eq,
        (hf.map rowSpend).sum_eq,
        (hf.map rowConv).sum_eq]
  exact ⟨hs, hv, hcv, hroas, hpd, hpm⟩

/-- C8 witness: the invariance applied to a concrete two-record collection and
a concrete two-row sequence, each against its transposition. -/
theorem c8_witness :
    totalSpendDb [⟨"facebook", "p", some 1, some 2, some 3⟩,
        ⟨"tiktok", "q", some 4, some 5, some 6⟩] =
      totalSpendDb [⟨"tiktok", "q", some 4, some 5, some 6⟩,
        ⟨"facebook", "p", some 1, some 2, some 3⟩] ∧
    totalRevenueDb [⟨"facebook", "p", some 1, some 2, some 3⟩,
        ⟨"tiktok", "q", some 4, some 5, some 6⟩] =
      totalRevenueDb [⟨"tiktok", "q", some 4, some 5, some 6⟩,
        ⟨"facebook", "p", some 1, some 2, some 3⟩] ∧
    totalConversionsDb [⟨"facebook", "p", some 1, some 2, some 3⟩,
        ⟨"tiktok", "q", some 4, some 5, some 6⟩] =
      totalConversionsDb [⟨"tiktok", "q", some 4, some 5, some 6⟩,
        ⟨"facebook", "p", some 1, some 2, some 3⟩] ∧
    roasKpi [⟨"facebook", "p", some 1, some 2, some 3⟩,
        ⟨"tiktok", "q", some 4, some 5, some 6⟩] =
      roasKpi [⟨"tiktok", "q", some 4, some 5, some 6⟩,
        ⟨"facebook", "p", some 1, some 2, some 3⟩] ∧
    platformData [⟨"facebook", "p", some 1, some 2, some 3⟩,
        ⟨"tiktok", "q", some 4, some 5, some 6⟩] =
      platformData [⟨"tiktok", "q", some 4, some 5, some 6⟩,
        ⟨"facebook", "p", some 1, some 2, some 3⟩] ∧
    productMap (settingsMapOf [("P", 10)])
        [("Facebook", [("Campaign name", "P - x"), ("Results", "2")]),
         ("Google", [("Campaign name", "Q - y"), ("Results", "3")])] =
      productMap (settingsMapOf [("P", 10)])
        [("Google", [("Campaign name", "Q - y"), ("Results", "3")]),
         ("Facebook", [("Campaign name", "P - x"), ("Results", "2")])] :=
  c8_order_invariance
    [⟨"facebook", "p", some 1, some 2, some 3⟩, ⟨"tiktok", "q", some 4, some 5, some 6⟩]
    [⟨"tiktok", "q", some 4, some 5, some 6⟩, ⟨"facebook", "p", some 1, some 2, some 3⟩]
    [("P", 10)]
    [("Facebook", [("Campaign name", "P - x"), ("Results", "2")]),
     ("Google", [("Campaign name", "Q - y"), ("Results", "3")])]
    [("Google", [("Campaign name", "Q - y"), ("Results", "3")]),
     ("Facebook", [("Campaign name", "P - x"), ("Results", "2")])]
    (List.Perm.swap _ _ _) (List.Perm.swap _ _ _)
